import Mathlib

/-!
Verification development for the AI-Powered Symptom Checker and Doctor Finder
bot.  The Python sources (`app.py`, `utils.py`, `location_service.py`) are
shallowly embedded below: pandas dataframes become lists of row structures,
optional (possibly-NaN) cells become `Option String`, floating point
probabilities become rationals, and the real-valued geographic math is
embedded over `ℝ`.
-/

/-! ### Python string primitives, embedded on `List Char` / `String` -/

/-- Python `str.strip()` on the character list of an ASCII string: drop
whitespace from both ends. -/
def pyStrip (l : List Char) : List Char :=
  ((l.dropWhile Char.isWhitespace).reverse.dropWhile Char.isWhitespace).reverse

/-- The character-level effect of Python `"x".replace('_', ' ')`: both pattern
and replacement have length one, so the replacement is a character map. -/
def replaceUnderscores (l : List Char) : List Char :=
  l.map fun c => if c = '_' then ' ' else c

/-- Split a character list at every whitespace character, keeping the
(possibly empty) fragments between consecutive separators. -/
def chunks : List Char → List (List Char)
  | [] => []
  | c :: cs =>
    if c.isWhitespace then [] :: chunks cs
    else
      match chunks cs with
      | [] => [[c]]
      | w :: rest => (c :: w) :: rest

/-- Python `str.split()` with no separator: the maximal nonempty runs of
non-whitespace characters. -/
def pyWords (l : List Char) : List (List Char) :=
  (chunks l).filter (· ≠ [])

/-- Join words with a single space, as `' '.join(words)` does. -/
def joinSp : List (List Char) → List Char
  | [] => []
  | [w] => w
  | w :: w' :: ws => w ++ ' ' :: joinSp (w' :: ws)

/-- ASCII lower-casing of one character, as Python `str.lower()` performs on
the ASCII letters appearing in the medical tables (identical to
`Char.toLower` on this range). -/
def pyLowerChar (c : Char) : Char :=
  if c.isUpper then Char.ofNat (c.toNat + 32) else c

/-- ASCII upper-casing of one character, as Python `str.upper()` performs on
ASCII letters (identical to `Char.toUpper` on this range). -/
def pyUpperChar (c : Char) : Char :=
  if c.isLower then Char.ofNat (c.toNat - 32) else c

/-- One step of Python `str.title()`: an alphabetic character is upper-cased
when the previous character was not alphabetic and lower-cased otherwise;
other characters pass through. -/
def titleChar (prevAlpha : Bool) (c : Char) : Char :=
  if c.isAlpha then (if prevAlpha then pyLowerChar c else pyUpperChar c) else c

/-- Python `str.title()` as a left-to-right scan carrying whether the previous
character was alphabetic. -/
def titleAux (prevAlpha : Bool) : List Char → List Char
  | [] => []
  | c :: cs => titleChar prevAlpha c :: titleAux c.isAlpha cs

/-- Python `str.title()` on a character list. -/
def pyTitle (l : List Char) : List Char := titleAux false l

/-- Python `str.lower()` on a string of ASCII text. -/
def pyLower (s : String) : String := ⟨s.data.map pyLowerChar⟩

/-- Python `str.strip()` on a string. -/
def pyStripStr (s : String) : String := ⟨pyStrip s.data⟩

/-- Python `str.split()` on a string: list of whitespace-separated words. -/
def pySplit (s : String) : List String := (pyWords s.data).map List.asString

/-- Does the character list start with the pattern `pat` (second argument)? -/
def startsWith : List Char → List Char → Bool
  | _, [] => true
  | [], _ :: _ => false
  | c :: cs, d :: ds => c = d && startsWith cs ds

/-- Python substring membership `pat in s`, on character lists (first argument
the haystack, second the pattern). -/
def containsSeq : List Char → List Char → Bool
  | [], pat => startsWith [] pat
  | c :: cs, pat => startsWith (c :: cs) pat || containsSeq cs pat

/-- Python `pat in s` on strings.  `pandas.Series.str.contains` in
`get_precautions` is applied to plain alphabetic disease-name tokens, on
which its default regex matching coincides with substring membership. -/
def strContains (s pat : String) : Bool := containsSeq s.data pat.data

/-! ### `utils.clean_symptom_text` -/

/-- Embedding of `utils.clean_symptom_text`: a missing (`NaN`) or empty value
maps to the empty string; otherwise the text is stripped, underscores become
spaces, internal whitespace is collapsed via `' '.join(s.split())`, and the
result is title-cased. -/
def clean_symptom_text : Option String → String
  | none => ""
  | some s =>
    if s = "" then ""
    else ⟨pyTitle (joinSp (pyWords (replaceUnderscores (pyStrip s.data))))⟩

/-! ### `app.HealthcareAssistant.predict_disease` post-processing

`model.predict_proba` hands back one posterior probability per entry of
`model.classes_` (the training labels, deduplicated and sorted by
`np.unique`).  The remainder of `predict_disease` (lines 119-130 of `app.py`)
is embedded here over those two lists. -/

/-- The comparison used to embed `np.argsort`: probability ascending, index
ascending among equal probabilities.  The index tie-break makes this a
genuine linear order on indices, i.e. a stable argsort. -/
def rankLe (probs : List ℚ) (i j : ℕ) : Prop :=
  probs.getD i 0 < probs.getD j 0 ∨ (probs.getD i 0 = probs.getD j 0 ∧ i ≤ j)

instance instDecidableRankLe (probs : List ℚ) : DecidableRel (rankLe probs) :=
  fun i j => by unfold rankLe; exact inferInstance

/-- Embedding of `np.argsort(probabilities)`: the indices `0..n-1` sorted by
ascending probability, ties ordered by ascending index. -/
def argsortAsc (probs : List ℚ) : List ℕ :=
  List.insertionSort (rankLe probs) (List.range probs.length)

/-- Embedding of `np.argsort(probabilities)[-5:][::-1]`: the (up to) five
indices of highest probability, highest first. -/
def topIndices (probs : List ℚ) : List ℕ :=
  ((argsortAsc probs).drop (probs.length - 5)).reverse

/-- Embedding of `HealthcareAssistant.predict_disease` after `predict_proba`
has produced the posterior vector `probs` over `classes`: walk the top five
indices, keep those with probability strictly above `0.01`, and return the
matching class labels paired componentwise with the probabilities scaled to
percent. -/
def predict_disease (probs : List ℚ) (classes : List String) :
    List String × List ℚ :=
  let sel := (topIndices probs).filter fun i => 1 / 100 < probs.getD i 0
  (sel.map fun i => classes.getD i "", sel.map fun i => probs.getD i 0 * 100)

/-! ### The fitted pipeline, modelled for the degenerate-query claim

`Pipeline([TfidfVectorizer(lowercase=True, stop_words='english'),
MultinomialNB()])` is an external library artifact; it is modelled here just
faithfully enough for the claims that depend on it.  The vectorizer
tokenizes on runs of word characters, keeps tokens of length at least two,
lower-cases them, removes stop words and counts vocabulary hits; the
`tf-idf` weighting and row normalization are strictly positive rescalings of
those counts, so a query vectorizes to the zero vector exactly when its
token-count vector is zero — the only case the claims below evaluate
through the classifier.  `MultinomialNB.predict_proba` is the normalized
product of the class prior with the per-term conditional likelihoods raised
to the feature counts. -/

/-- Is the character a word character for the default sklearn token pattern
(ASCII reading of the regex class w)? -/
def isWordChar (c : Char) : Bool := c.isAlphanum || c = '_'

/-- Maximal runs of word characters in a character list. -/
def wordRuns (l : List Char) : List (List Char) :=
  (l.foldr
    (fun c acc =>
      if isWordChar c then
        match acc with
        | [] => [[c]]
        | w :: rest => (c :: w) :: rest
      else [] :: acc)
    []).filter (· ≠ [])

/-- Tokenization done by `TfidfVectorizer(lowercase=True)`: lower-cased
maximal word-character runs of length at least two. -/
def tokenize (s : String) : List String :=
  ((wordRuns s.data).filter fun w => 2 ≤ w.length).map fun w =>
    (w.map pyLowerChar).asString

/-- The trained matcher state: the sorted class labels with their priors and
per-class conditional term likelihoods, plus the vectorizer vocabulary and
stop-word list. -/
structure Matcher where
  classes : List String
  priors : List ℚ
  theta : List (List ℚ)
  vocab : List String
  stopWords : List String

/-- Token-count vector of a query over the matcher vocabulary, after
stop-word removal. -/
def tfVector (m : Matcher) (text : String) : List ℕ :=
  let toks := (tokenize text).filter fun t => t ∉ m.stopWords
  m.vocab.map fun v => toks.count v

/-- Unnormalized multinomial class score: prior times the product of term
likelihoods raised to the token counts. -/
def classScore (prior : ℚ) (thetaC : List ℚ) (x : List ℕ) : ℚ :=
  prior * ((thetaC.zip x).map fun p => p.1 ^ p.2).prod

/-- Modelled `predict_proba` of the fitted pipeline: the normalized
per-class multinomial scores of the query's token-count vector. -/
def pipelineProba (m : Matcher) (text : String) : List ℚ :=
  let scores := (m.priors.zip m.theta).map fun p => classScore p.1 p.2 (tfVector m text)
  scores.map (· / scores.sum)

/-- Embedding of `predict_disease` on a fitted matcher: the posterior vector
of the query postprocessed by the top-five-above-one-percent policy. -/
def predictFitted (m : Matcher) (text : String) : List String × List ℚ :=
  predict_disease (pipelineProba m text) m.classes

/-! ### `app.HealthcareAssistant` startup: `load_data` and `prepare_model` -/

/-- One row of `DiseaseAndSymptoms.csv`: the disease name and the
`Symptom_*` cells, each possibly missing. -/
structure SymptomRow where
  disease : String
  symptoms : List (Option String)
deriving DecidableEq

/-- One row of `Disease precaution.csv`: the disease name and the four
`Precaution_*` cells, each possibly missing. -/
structure PrecRow where
  disease : String
  p1 : Option String
  p2 : Option String
  p3 : Option String
  p4 : Option String
deriving DecidableEq

/-- Embedding of `HealthcareAssistant.load_data`: each source is `none` when
its file cannot be located.  `pd.read_csv` on a missing first file raises
before either frame is assigned; a missing second file raises after the
first frame was assigned.  Both raises are caught (`st.error` is shown) and
initialization continues with whatever was assigned. -/
def load_data (disSrc : Option (List SymptomRow)) (precSrc : Option (List PrecRow)) :
    Option (List SymptomRow) × Option (List PrecRow) :=
  match disSrc with
  | none => (none, none)
  | some d =>
    match precSrc with
    | none => (some d, none)
    | some p => (some d, some p)

/-- The per-row training document of `prepare_model`: the non-missing symptom
cells, stripped and with underscores replaced, empty results dropped, joined
with single spaces. -/
def rowDocument (r : SymptomRow) : List Char :=
  joinSp ((r.symptoms.filterMap fun cell =>
    cell.map fun s => replaceUnderscores (pyStrip s.data)).filter (· ≠ []))

/-- The `(X_train, y_train)` corpus built by `prepare_model`: one document
per row with at least one usable symptom, labelled by the row's disease. -/
def trainingCorpus (rows : List SymptomRow) : List (String × String) :=
  (rows.filterMap fun r =>
    let syms := (r.symptoms.filterMap fun cell =>
      cell.map fun s => replaceUnderscores (pyStrip s.data)).filter (· ≠ [])
    if syms.isEmpty then none else some ((joinSp syms).asString, r.disease))

/-- The model attribute after `prepare_model`: `noModel` when the diseases
frame was never loaded (the attribute keeps its `None` default), `unfitted`
when the pipeline object was assigned but the corpus was empty so `fit` was
never called, and `fittedPipeline` with the training corpus otherwise. -/
inductive PipelineState where
  | noModel : PipelineState
  | unfitted : PipelineState
  | fittedPipeline : List (String × String) → PipelineState
deriving DecidableEq

/-- Embedding of `HealthcareAssistant.prepare_model`. -/
def prepare_model (dis : Option (List SymptomRow)) : PipelineState :=
  match dis with
  | none => .noModel
  | some rows =>
    let corpus := trainingCorpus rows
    if corpus.isEmpty then .unfitted else .fittedPipeline corpus

/-- Embedding of the whole `predict_disease` method including its guard and
exception handler, over an arbitrary library behaviour `proba` for the
fitted pipeline: a `None` model returns empty lists at once; calling
`predict_proba` on the never-fitted pipeline raises `NotFittedError`, and
any exception from the probability call is caught and converted to empty
lists. -/
def predict_disease_assistant
    (proba : List (String × String) → String → Except String (List ℚ × List String))
    (ms : PipelineState) (text : String) : List String × List ℚ :=
  match ms with
  | .noModel => ([], [])
  | .unfitted => ([], [])
  | .fittedPipeline corpus =>
    match proba corpus text with
    | .error _ => ([], [])
    | .ok (probs, classes) => predict_disease probs classes

/-! ### `app.HealthcareAssistant.get_precautions` -/

/-- The generic advice returned when no precaution row applies (the same four
strings appear at both `return` sites of `get_precautions`). -/
def genericPrecautions : List String :=
  ["Consult with a healthcare professional for proper diagnosis",
   "Rest and stay hydrated",
   "Monitor your symptoms closely",
   "Seek immediate medical attention if symptoms worsen"]

/-- Rows whose disease name equals the query case-insensitively
(`df['Disease'].str.lower() == disease.lower()`). -/
def exactMatches (rows : List PrecRow) (disease : String) : List PrecRow :=
  rows.filter fun r => pyLower r.disease = pyLower disease

/-- Rows whose lower-cased disease name contains the token
(`df['Disease'].str.lower().str.contains(token)`). -/
def substringMatches (rows : List PrecRow) (tok : String) : List PrecRow :=
  rows.filter fun r => strContains (pyLower r.disease) tok

/-- The list built from the first matching row: each of the four precaution
cells in order, kept when present and nonempty after stripping. -/
def extractPrecautions (r : PrecRow) : List String :=
  [r.p1, r.p2, r.p3, r.p4].filterMap fun cell =>
    cell.bind fun v =>
      let t := pyStrip v.data
      if t = [] then none else some t.asString

/-- Embedding of `HealthcareAssistant.get_precautions`.  The dataframe is
`none` when loading failed, in which case the generic advice is returned.
Otherwise: use the first case-insensitive exact match; failing that, take
the first whitespace token of the lowered query (`disease.lower().split()[0]`
raises `IndexError` on a whitespace-only query, which the `except` arm turns
into the generic advice) and use the first substring match; with no matching
row the generic advice is returned. -/
def get_precautions (df : Option (List PrecRow)) (disease : String) : List String :=
  match df with
  | none => genericPrecautions
  | some rows =>
    match exactMatches rows disease with
    | r :: _ => extractPrecautions r
    | [] =>
      match (pySplit (pyLower disease)).head? with
      | none => genericPrecautions
      | some tok =>
        match substringMatches rows tok with
        | r :: _ => extractPrecautions r
        | [] => genericPrecautions

/-! ### `location_service.LocationService`: facility ranking over `ℚ` -/

/-- A facility record as consumed by the ranking step: the distance has
already been computed and attached. -/
structure Facility where
  name : String
  ftype : String
  distance : ℚ
  rating : ℚ
  address : String
  phone : Option String
  specialties : List String
  lat : ℚ
  lon : ℚ
deriving DecidableEq

/-- Embedding of `LocationService._get_fallback_hospitals`: the fixed
two-entry list returned when provider calls fail, in its source order. -/
def get_fallback_hospitals (lat lon : ℚ) : List Facility :=
  [{ name := "General Hospital", ftype := "Hospital", distance := 5/2,
     rating := 21/5, address := "Near your location",
     phone := some "Call for information",
     specialties := ["Emergency Medicine", "General Medicine"],
     lat := lat + 1/100, lon := lon + 1/100 },
   { name := "Community Health Center", ftype := "Clinic", distance := 9/5,
     rating := 4, address := "Near your location",
     phone := some "Call for information",
     specialties := ["Primary Care", "Family Medicine"],
     lat := lat - 1/100, lon := lon - 1/100 }]

/-- Embedding of `hospitals.sort(key=lambda x: x['distance'])`: a stable sort
ascending by the attached distance. -/
def sortByDistance (hs : List Facility) : List Facility :=
  List.insertionSort (fun a b => a.distance ≤ b.distance) hs

/-- Embedding of `LocationService._search_osm_hospitals`: the records
extracted from a successful Overpass response are sorted by distance and
truncated to 15; a failed request falls back to the fixed list. -/
def search_osm_hospitals (osmOutcome : Except Unit (List Facility)) (lat lon : ℚ) :
    List Facility :=
  match osmOutcome with
  | .ok fs => (sortByDistance fs).take 15
  | .error _ => get_fallback_hospitals lat lon

/-- Embedding of `LocationService.find_nearby_hospitals_real`.  With a
Google Maps client, the hospital and clinic records extracted from a
successful Places response are sorted ascending by distance and truncated
to 15, while a Places exception returns the fixed fallback list directly;
without a client the OpenStreetMap path is used. -/
def find_nearby_hospitals_real (gmapsAvailable : Bool)
    (placesOutcome : Except Unit (List Facility))
    (osmOutcome : Except Unit (List Facility)) (lat lon : ℚ) : List Facility :=
  if gmapsAvailable then
    match placesOutcome with
    | .ok hs => (sortByDistance hs).take 15
    | .error _ => get_fallback_hospitals lat lon
  else search_osm_hospitals osmOutcome lat lon

/-! ### `location_service.LocationService._calculate_distance` over `ℝ` -/

/-- Embedding of `math.radians`. -/
noncomputable def radians (x : ℝ) : ℝ := x * Real.pi / 180

/-- Embedding of `LocationService._calculate_distance`: the haversine
great-circle distance with Earth radius 6371 km. -/
noncomputable def calculate_distance (lat1 lon1 lat2 lon2 : ℝ) : ℝ :=
  let lat1r := radians lat1
  let lon1r := radians lon1
  let lat2r := radians lat2
  let lon2r := radians lon2
  let dlat := lat2r - lat1r
  let dlon := lon2r - lon1r
  let a := Real.sin (dlat / 2) ^ 2 +
    Real.cos lat1r * Real.cos lat2r * Real.sin (dlon / 2) ^ 2
  let c := 2 * Real.arcsin (Real.sqrt a)
  6371 * c

/-- Python `round(x, 1)` over the reals: round to the nearest tenth (the
half-even and half-up conventions agree away from exact ties, and every
value this development evaluates is strictly inside its rounding
interval). -/
noncomputable def round1 (x : ℝ) : ℝ := (round (10 * x) : ℤ) / 10

/-- The `distance` field attached to a facility record by
`LocationService._extract_place_info`: `round(self._calculate_distance(
user_lat, user_lon, place_lat, place_lon), 1)`. -/
noncomputable def extract_place_distance (userLat userLon placeLat placeLon : ℝ) : ℝ :=
  round1 (calculate_distance userLat userLon placeLat placeLon)

/-- The haversine distance as the specification words it: twice the Earth
radius of 6371 km times the arcsine of the square root of the haversine
term. -/
noncomputable def haversineSpec (lat1 lon1 lat2 lon2 : ℝ) : ℝ :=
  2 * 6371 * Real.arcsin (Real.sqrt
    (Real.sin ((radians lat2 - radians lat1) / 2) ^ 2 +
     Real.cos (radians lat1) * Real.cos (radians lat2) *
       Real.sin ((radians lon2 - radians lon1) / 2) ^ 2))

/-! ### Helper lemmas -/

theorem extractPrecautions_length (r : PrecRow) : (extractPrecautions r).length ≤ 4 := by
  have h := List.length_filterMap_le
    (fun cell => Option.bind cell fun v =>
      let t := pyStrip v.data
      if t = [] then none else some t.asString)
    [r.p1, r.p2, r.p3, r.p4]
  simpa [extractPrecautions] using h

theorem extractPrecautions_ne_empty (r : PrecRow) :
    ∀ s ∈ extractPrecautions r, s ≠ "" := by
  intro s hs
  simp only [extractPrecautions, List.mem_filterMap] at hs
  obtain ⟨cell, _, hcell⟩ := hs
  cases cell with
  | none => simp at hcell
  | some v =>
    by_cases h : pyStrip v.data = []
    · simp [h] at hcell
    · simp only [Option.some_bind] at hcell
      rw [if_neg h] at hcell
      injection hcell with hcell
      subst hcell
      intro hcontra
      apply h
      have := congrArg String.data hcontra
      simpa [List.asString] using this

/-- C3: for every disease-name query against a loaded precaution table, the
lookup uses the first case-insensitive exact match when one exists, otherwise
the first row whose lower-cased name contains the first whitespace token of
the lower-cased query, and otherwise returns the fixed four-entry generic
fallback list. -/
theorem get_precautions_lookup_order (rows : List PrecRow) (disease : String) :
    (∃ r rest, exactMatches rows disease = r :: rest ∧
      get_precautions (some rows) disease = extractPrecautions r) ∨
    (exactMatches rows disease = [] ∧
      ∃ tok r rest, (pySplit (pyLower disease)).head? = some tok ∧
        substringMatches rows tok = r :: rest ∧
        get_precautions (some rows) disease = extractPrecautions r) ∨
    (exactMatches rows disease = [] ∧
      (∀ tok ∈ (pySplit (pyLower disease)).head?, substringMatches rows tok = []) ∧
      get_precautions (some rows) disease = genericPrecautions ∧
      genericPrecautions.length = 4) := by
  rcases hE : exactMatches rows disease with _ | ⟨r, rest⟩
  · rcases hT : (pySplit (pyLower disease)).head? with _ | tok
    · right; right
      refine ⟨rfl, by simp, ?_, rfl⟩
      simp [get_precautions, hE, hT]
    · rcases hS : substringMatches rows tok with _ | ⟨r, rest⟩
      · right; right
        refine ⟨rfl, ?_, ?_, rfl⟩
        · intro t ht
          simp only [Option.mem_def, Option.some.injEq] at ht
          subst ht
          exact hS
        · simp [get_precautions, hE, hT, hS]
      · right; left
        exact ⟨rfl, tok, r, rest, rfl, hS, by simp [get_precautions, hE, hT, hS]⟩
  · left
    exact ⟨r, rest, rfl, by simp [get_precautions, hE]⟩

/-- C9 counterexample: a matched precaution row whose four cells are all
missing yields the empty list, not a nonempty list and not the generic
fallback. -/
theorem get_precautions_empty_output :
    get_precautions (some [⟨"fever", none, none, none, none⟩]) "Fever" = [] := by decide

/-- C9 amended: the lookup returns either the four-entry generic fallback or
the (order-preserving, possibly empty) list of at most four non-blank
stripped cell values of the first matching row. -/
theorem get_precautions_shape (df : Option (List PrecRow)) (disease : String) :
    get_precautions df disease = genericPrecautions ∨
    ((get_precautions df disease).length ≤ 4 ∧
      ∀ s ∈ get_precautions df disease, s ≠ "") := by
  rcases df with _ | rows
  · left; rfl
  rcases hE : exactMatches rows disease with _ | ⟨r, rest⟩
  · rcases hT : (pySplit (pyLower disease)).head? with _ | tok
    · left; simp [get_precautions, hE, hT]
    · rcases hS : substringMatches rows tok with _ | ⟨r, rest⟩
      · left; simp [get_precautions, hE, hT, hS]
      · right
        have hres : get_precautions (some rows) disease = extractPrecautions r := by
          simp [get_precautions, hE, hT, hS]
        rw [hres]
        exact ⟨extractPrecautions_length r, extractPrecautions_ne_empty r⟩
  · right
    have hres : get_precautions (some rows) disease = extractPrecautions r := by
      simp [get_precautions, hE]
    rw [hres]
    exact ⟨extractPrecautions_length r, extractPrecautions_ne_empty r⟩

/-- C4 counterexample: with the diseases table readable but the precaution
file missing, initialization continues, the model is trained anyway, and
precaution queries silently use the generic fallback — a
partial-knowledge-base mode, not a fatal startup failure. -/
theorem startup_continues_without_precautions :
    load_data (some [⟨"Flu", [some "fever"]⟩]) none = (some [⟨"Flu", [some "fever"]⟩], none) ∧
    prepare_model (some [⟨"Flu", [some "fever"]⟩]) = .fittedPipeline [("fever", "Flu")] ∧
    get_precautions none "Flu" = genericPrecautions := by
  refine ⟨rfl, ?_, rfl⟩
  decide

/-- C4 amended: a missing data source is caught and reported rather than
halting startup; a missing diseases source leaves the model `None` and
queries return empty predictions, a missing precautions source still leaves
the diseases frame loaded, and an empty diseases frame leaves an unfitted
pipeline whose prediction failure is likewise absorbed. -/
theorem startup_degrades_without_sources (precSrc : Option (List PrecRow))
    (dis : List SymptomRow) (text : String)
    (proba : List (String × String) → String → Except String (List ℚ × List String)) :
    predict_disease_assistant proba (prepare_model ((load_data none precSrc).1)) text = ([], []) ∧
    load_data (some dis) none = (some dis, none) ∧
    prepare_model (some []) = PipelineState.unfitted ∧
    predict_disease_assistant proba PipelineState.unfitted text = ([], []) := by
  refine ⟨?_, rfl, rfl, rfl⟩
  cases precSrc <;> rfl

/-- C5: a `None` model short-circuits `predict_disease` to empty lists for
every query, and an exception raised by the probability computation on a
fitted pipeline is caught and likewise converted to empty lists instead of
propagating. -/
theorem predict_disease_error_handling :
    (∀ (proba : List (String × String) → String → Except String (List ℚ × List String))
      (text : String),
      predict_disease_assistant proba PipelineState.noModel text = ([], [])) ∧
    (∀ (corpus : List (String × String)) (msg text : String),
      predict_disease_assistant (fun _ _ => Except.error msg)
        (PipelineState.fittedPipeline corpus) text = ([], [])) :=
  ⟨fun _ _ => rfl, fun _ _ _ => rfl⟩

/-! ### Ranking lemmas for `predict_disease` -/

theorem rankLe_total (probs : List ℚ) : IsTotal ℕ (rankLe probs) := by
  constructor
  intro i j
  rcases lt_trichotomy (probs.getD i 0) (probs.getD j 0) with h | h | h
  · exact Or.inl (Or.inl h)
  · rcases Nat.le_total i j with hij | hij
    · exact Or.inl (Or.inr ⟨h, hij⟩)
    · exact Or.inr (Or.inr ⟨h.symm, hij⟩)
  · exact Or.inr (Or.inl h)

theorem rankLe_trans (probs : List ℚ) : IsTrans ℕ (rankLe probs) := by
  constructor
  intro i j k hij hjk
  rcases hij with h1 | ⟨h1, h1'⟩
  · rcases hjk with h2 | ⟨h2, _⟩
    · exact Or.inl (h1.trans h2)
    · exact Or.inl (h2 ▸ h1)
  · rcases hjk with h2 | ⟨h2, h2'⟩
    · exact Or.inl (h1 ▸ h2)
    · exact Or.inr ⟨h1.trans h2, h1'.trans h2'⟩

theorem argsortAsc_sorted (probs : List ℚ) :
    (argsortAsc probs).Sorted (rankLe probs) := by
  haveI := rankLe_total probs
  haveI := rankLe_trans probs
  exact List.sorted_insertionSort (rankLe probs) (List.range probs.length)

theorem mem_argsortAsc_lt (probs : List ℚ) {i : ℕ} (h : i ∈ argsortAsc probs) :
    i < probs.length := by
  have hperm := List.perm_insertionSort (rankLe probs) (List.range probs.length)
  have : i ∈ List.range probs.length := hperm.mem_iff.mp h
  exact List.mem_range.mp this

theorem mem_topIndices_lt (probs : List ℚ) {i : ℕ} (h : i ∈ topIndices probs) :
    i < probs.length := by
  apply mem_argsortAsc_lt probs
  simp only [topIndices, List.mem_reverse] at h
  exact List.mem_of_mem_drop h

theorem topIndices_length_le (probs : List ℚ) : (topIndices probs).length ≤ 5 := by
  have hlen : (argsortAsc probs).length = probs.length := by
    have h := (List.perm_insertionSort (rankLe probs) (List.range probs.length)).length_eq
    rw [List.length_range] at h
    exact h
  simp only [topIndices, List.length_reverse, List.length_drop, hlen]
  omega

theorem topIndices_pairwise (probs : List ℚ) :
    (topIndices probs).Pairwise (fun i j => rankLe probs j i) := by
  have h1 : ((argsortAsc probs).drop (probs.length - 5)).Sorted (rankLe probs) :=
    (argsortAsc_sorted probs).sublist (List.drop_sublist _ _)
  exact List.pairwise_reverse.mpr h1

/-- C2: for every posterior vector whose entries are genuine probabilities,
`predict_disease` returns at most five label/confidence pairs, and every
returned confidence is some posterior probability scaled by 100, strictly
above 1 and at most 100. -/
theorem predict_disease_topk_confidence (probs : List ℚ) (classes : List String)
    (hp : ∀ p ∈ probs, p ≤ 1) :
    (predict_disease probs classes).1.length ≤ 5 ∧
    (predict_disease probs classes).2.length = (predict_disease probs classes).1.length ∧
    ∀ c ∈ (predict_disease probs classes).2,
      1 < c ∧ c ≤ 100 ∧ ∃ p ∈ probs, c = p * 100 := by
  simp only [predict_disease]
  refine ⟨?_, by simp, ?_⟩
  · calc (((topIndices probs).filter fun i =>
          decide (1 / 100 < probs.getD i 0)).map fun i => classes.getD i "").length
        = ((topIndices probs).filter fun i => decide (1 / 100 < probs.getD i 0)).length := by
          simp
      _ ≤ (topIndices probs).length := List.length_filter_le _ _
      _ ≤ 5 := topIndices_length_le probs
  · intro c hc
    simp only [List.mem_map, List.mem_filter, decide_eq_true_eq] at hc
    obtain ⟨i, ⟨hiTop, hiGt⟩, hce⟩ := hc
    have hilt : i < probs.length := mem_topIndices_lt probs hiTop
    have hget : probs.getD i 0 = probs[i] := List.getD_eq_getElem probs 0 hilt
    have hmem : probs[i] ∈ probs := List.getElem_mem hilt
    refine ⟨?_, ?_, probs[i], hmem, by rw [← hce, hget]⟩
    · rw [← hce]
      nlinarith [hiGt]
    · rw [← hce, hget]
      have := hp _ hmem
      nlinarith [this]

/-- C2 witness at a concrete probability vector and class list. -/
theorem predict_disease_topk_confidence_witness :
    (∀ p ∈ ([1/2, 1/2] : List ℚ), p ≤ 1) ∧
    ((predict_disease [1/2, 1/2] ["Cold", "Flu"]).1.length ≤ 5 ∧
    (predict_disease [1/2, 1/2] ["Cold", "Flu"]).2.length
      = (predict_disease [1/2, 1/2] ["Cold", "Flu"]).1.length ∧
    ∀ c ∈ (predict_disease [1/2, 1/2] ["Cold", "Flu"]).2,
      1 < c ∧ c ≤ 100 ∧ ∃ p ∈ ([1/2, 1/2] : List ℚ), c = p * 100) :=
  ⟨by norm_num, predict_disease_topk_confidence [1/2, 1/2] ["Cold", "Flu"] (by norm_num)⟩

/-- C1 counterexample: with two classes tied at posterior 1/2, both
confidences are 50, so the returned sequence is not strictly descending; and
with training first-seen order Cold before Flu, the tie is returned in the
opposite order. -/
theorem predict_disease_tie_not_strict :
    (predict_disease [1/2, 1/2] ["Cold", "Flu"]).1 = ["Flu", "Cold"] ∧
    (predict_disease [1/2, 1/2] ["Cold", "Flu"]).2 = [50, 50] ∧
    ¬ ((predict_disease [1/2, 1/2] ["Cold", "Flu"]).2.Pairwise (· > ·)) := by
  have h1 : (predict_disease [1/2, 1/2] ["Cold", "Flu"]).1 = ["Flu", "Cold"] := by
    norm_num [predict_disease, topIndices, argsortAsc, rankLe, List.insertionSort,
      List.orderedInsert, List.range, List.range.loop, List.filter, List.getD]
  have h2 : (predict_disease [1/2, 1/2] ["Cold", "Flu"]).2 = [50, 50] := by
    norm_num [predict_disease, topIndices, argsortAsc, rankLe, List.insertionSort,
      List.orderedInsert, List.range, List.range.loop, List.filter, List.getD]
  refine ⟨h1, h2, ?_⟩
  rw [h2]
  intro hpw
  have := List.rel_of_pairwise_cons hpw (List.mem_singleton.mpr rfl)
  exact absurd this (by norm_num)

/-- C1 amended: the returned sequence is sorted descending by confidence
(not strictly: ties survive the filter), and among tied confidences labels
appear in descending class order — the reverse of the sorted `classes_`
index order — rather than first-seen training order. -/
theorem predict_disease_sorted_desc (probs : List ℚ) (classes : List String)
    (hlen : probs.length ≤ classes.length) (hsorted : classes.Sorted (· < ·)) :
    ((predict_disease probs classes).1.zip (predict_disease probs classes).2).Pairwise
      (fun a b => b.2 < a.2 ∨ (a.2 = b.2 ∧ b.1 ≤ a.1)) := by
  simp only [predict_disease]
  rw [List.zip_map', List.pairwise_map]
  have hsel : (((topIndices probs).filter fun i =>
      decide (1 / 100 < probs.getD i 0))).Pairwise (fun i j => rankLe probs j i) :=
    (topIndices_pairwise probs).filter _
  refine List.Pairwise.imp_of_mem ?_ hsel
  intro i j hi hj hr
  have hi' : i < probs.length := mem_topIndices_lt probs (List.mem_of_mem_filter hi)
  have hj' : j < probs.length := mem_topIndices_lt probs (List.mem_of_mem_filter hj)
  dsimp only
  rcases hr with hlt | ⟨heq, hle⟩
  · exact Or.inl (by nlinarith [hlt])
  · refine Or.inr ⟨by rw [heq], ?_⟩
    rcases eq_or_lt_of_le hle with rfl | hlt2
    · exact le_refl _
    · have hjc : j < classes.length := lt_of_lt_of_le hj' hlen
      have hic : i < classes.length := lt_of_lt_of_le hi' hlen
      have hgl : classes.getD j "" < classes.getD i "" := by
        rw [List.getD_eq_getElem classes "" hjc, List.getD_eq_getElem classes "" hic]
        exact List.pairwise_iff_getElem.mp hsorted j i hjc hic hlt2
      exact le_of_lt hgl

/-- C1 amended witness at a concrete probability vector and sorted class
list. -/
theorem predict_disease_sorted_desc_witness :
    (["Cold", "Flu"] : List String).Sorted (· < ·) ∧
    ((predict_disease [1/2, 1/2] ["Cold", "Flu"]).1.zip
        (predict_disease [1/2, 1/2] ["Cold", "Flu"]).2).Pairwise
      (fun a b => b.2 < a.2 ∨ (a.2 = b.2 ∧ b.1 ≤ a.1)) :=
  ⟨by simp [List.sorted_cons, String.lt_iff_toList_lt]; decide,
   predict_disease_sorted_desc [1/2, 1/2] ["Cold", "Flu"] (by decide)
     (by simp [List.sorted_cons, String.lt_iff_toList_lt]; decide)⟩

/-! ### Degenerate-query lemmas for the fitted pipeline -/

theorem classScore_zero_vector (prior : ℚ) (thetaC : List ℚ) (x : List ℕ)
    (hx : ∀ n ∈ x, n = 0) : classScore prior thetaC x = prior := by
  unfold classScore
  have h1 : ((thetaC.zip x).map fun p => p.1 ^ p.2).prod = 1 := by
    induction thetaC generalizing x with
    | nil => simp
    | cons t ts ih =>
      cases x with
      | nil => simp
      | cons n ns =>
        have hn : n = 0 := hx n (List.mem_cons_self n ns)
        have hns : ∀ m ∈ ns, m = 0 := fun m hm => hx m (List.mem_cons_of_mem n hm)
        simp [hn, ih ns hns]
  rw [h1, mul_one]

theorem tfVector_all_stop (m : Matcher) (text : String)
    (hstop : ∀ t ∈ tokenize text, t ∈ m.stopWords) :
    ∀ n ∈ tfVector m text, n = 0 := by
  intro n hn
  unfold tfVector at hn
  have htoks : (tokenize text).filter (fun t => decide (t ∉ m.stopWords)) = [] := by
    rw [List.filter_eq_nil_iff]
    intro t ht
    simp only [decide_eq_true_eq, Decidable.not_not]
    exact hstop t ht
  rw [htoks] at hn
  simp only [List.mem_map] at hn
  obtain ⟨v, _, hv⟩ := hn
  simp [← hv]

/-- C6: a query whose every token is a stop word (in particular the empty
query) vectorizes to the zero vector, on which the fitted classifier's
posterior collapses to the class priors; `predict_disease` then returns the
prior-driven ranking under the normal filter-and-truncate policy, not a
special-cased empty result. -/
theorem predictFitted_degenerate (m : Matcher) (text : String)
    (hstop : ∀ t ∈ tokenize text, t ∈ m.stopWords)
    (hlen : m.priors.length ≤ m.theta.length)
    (hsum : m.priors.sum = 1) :
    predictFitted m text = predict_disease m.priors m.classes := by
  unfold predictFitted
  have hproba : pipelineProba m text = m.priors := by
    unfold pipelineProba
    have hx := tfVector_all_stop m text hstop
    have hscores : ((m.priors.zip m.theta).map fun p =>
        classScore p.1 p.2 (tfVector m text)) = m.priors := by
      have hmap : ∀ p ∈ m.priors.zip m.theta,
          classScore p.1 p.2 (tfVector m text) = p.1 := fun p _ =>
        classScore_zero_vector p.1 p.2 _ hx
      rw [List.map_congr_left hmap]
      have : (m.priors.zip m.theta).map Prod.fst = m.priors :=
        List.map_fst_zip m.priors m.theta hlen
      simpa using this
    rw [hscores]
    simp [hsum]
  rw [hproba]

/-- C6 witness: a concrete two-class matcher queried with the empty string. -/
theorem predictFitted_degenerate_witness :
    (∀ t ∈ tokenize "", t ∈ (["the"] : List String)) ∧
    predictFitted ⟨["Cold", "Flu"], [1/2, 1/2], [[1/3, 2/3], [2/3, 1/3]],
        ["cough", "fever"], ["the"]⟩ ""
      = predict_disease [1/2, 1/2] ["Cold", "Flu"] :=
  ⟨by decide,
   predictFitted_degenerate
     ⟨["Cold", "Flu"], [1/2, 1/2], [[1/3, 2/3], [2/3, 1/3]], ["cough", "fever"], ["the"]⟩
     "" (by decide) (by decide) (by norm_num)⟩

/-! ### Facility ranking lemmas -/

theorem sortByDistance_sorted (hs : List Facility) :
    (sortByDistance hs).Pairwise (fun a b => a.distance ≤ b.distance) := by
  haveI : IsTotal Facility (fun a b => a.distance ≤ b.distance) :=
    ⟨fun a b => le_total a.distance b.distance⟩
  haveI : IsTrans Facility (fun a b => a.distance ≤ b.distance) :=
    ⟨fun _ _ _ h1 h2 => le_trans h1 h2⟩
  exact List.sorted_insertionSort _ hs

/-- C8 amended: the returned facility list always has length at most 15; on
every successful provider path it is sorted ascending by the attached
distance, and only the fixed API-failure fallback list (which is not sorted
ascending) escapes that guarantee. -/
theorem find_nearby_length_sorted (g : Bool) (po oo : Except Unit (List Facility))
    (lat lon : ℚ) :
    (find_nearby_hospitals_real g po oo lat lon).length ≤ 15 ∧
    ((find_nearby_hospitals_real g po oo lat lon).Pairwise
        (fun a b => a.distance ≤ b.distance) ∨
      find_nearby_hospitals_real g po oo lat lon = get_fallback_hospitals lat lon) := by
  have hfb : (get_fallback_hospitals lat lon).length ≤ 15 := by
    simp [get_fallback_hospitals]
  cases g with
  | true =>
    cases po with
    | error e =>
      exact ⟨by simp [find_nearby_hospitals_real, get_fallback_hospitals],
        Or.inr (by simp [find_nearby_hospitals_real])⟩
    | ok hs =>
      refine ⟨?_, Or.inl ?_⟩
      · simp [find_nearby_hospitals_real]
      · have h := (sortByDistance_sorted hs).sublist (List.take_sublist 15 (sortByDistance hs))
        simpa [find_nearby_hospitals_real] using h
  | false =>
    cases oo with
    | error e =>
      exact ⟨by simp [find_nearby_hospitals_real, search_osm_hospitals, get_fallback_hospitals],
        Or.inr (by simp [find_nearby_hospitals_real, search_osm_hospitals])⟩
    | ok fs =>
      refine ⟨?_, Or.inl ?_⟩
      · simp [find_nearby_hospitals_real, search_osm_hospitals]
      · have h := (sortByDistance_sorted fs).sublist (List.take_sublist 15 (sortByDistance fs))
        simpa [find_nearby_hospitals_real, search_osm_hospitals] using h

/-- C8 counterexample: on the API-failure path the ranker returns the fixed
fallback list whose distances are 2.5 then 1.8 — not sorted ascending. -/
theorem find_nearby_fallback_unsorted :
    (find_nearby_hospitals_real true (.error ()) (.ok []) 40 (-74)).map Facility.distance
      = [5/2, 9/5] ∧
    ¬ ((find_nearby_hospitals_real true (.error ()) (.ok []) 40 (-74)).Pairwise
        (fun a b => a.distance ≤ b.distance)) := by
  have h1 : (find_nearby_hospitals_real true (.error ()) (.ok []) 40 (-74)).map
      Facility.distance = [5/2, 9/5] := by
    norm_num [find_nearby_hospitals_real, get_fallback_hospitals]
  refine ⟨h1, ?_⟩
  intro hpw
  have h2 : find_nearby_hospitals_real true (.error ()) (.ok []) 40 (-74)
      = get_fallback_hospitals 40 (-74) := by
    simp [find_nearby_hospitals_real]
  rw [h2] at hpw
  simp only [get_fallback_hospitals, List.pairwise_cons] at hpw
  have := hpw.1 _ (List.mem_singleton.mpr rfl)
  norm_num at this

/-! ### Character-level lemmas for the title-case analysis -/

theorem charToNat_ofNat {n : ℕ} (h : n < 55296) : (Char.ofNat n).toNat = n := by
  have hv : n.isValidChar := Or.inl h
  simp [Char.ofNat, hv, Char.ofNatAux, Char.toNat, UInt32.toNat]

theorem char_eq_iff_toNat {c d : Char} : c = d ↔ c.toNat = d.toNat := by
  constructor
  · intro h; rw [h]
  · intro h; exact Char.eq_of_val_eq (UInt32.ext h)

theorem isUpper_iff {c : Char} : c.isUpper = true ↔ 65 ≤ c.toNat ∧ c.toNat ≤ 90 := by
  simp [Char.isUpper, UInt32.le_def, BitVec.le_def, Char.toNat, UInt32.toNat]

theorem isLower_iff {c : Char} : c.isLower = true ↔ 97 ≤ c.toNat ∧ c.toNat ≤ 122 := by
  simp [Char.isLower, UInt32.le_def, BitVec.le_def, Char.toNat, UInt32.toNat]

theorem isWhitespace_iff {c : Char} : c.isWhitespace = true ↔
    c.toNat = 32 ∨ c.toNat = 9 ∨ c.toNat = 13 ∨ c.toNat = 10 := by
  have h1 : (' ' : Char).toNat = 32 := rfl
  have h2 : ('\t' : Char).toNat = 9 := rfl
  have h3 : ('\r' : Char).toNat = 13 := rfl
  have h4 : ('\n' : Char).toNat = 10 := rfl
  simp only [Char.isWhitespace, Bool.or_eq_true, decide_eq_true_eq,
    char_eq_iff_toNat, h1, h2, h3, h4]
  tauto

theorem isAlpha_iff {c : Char} : c.isAlpha = true ↔
    (65 ≤ c.toNat ∧ c.toNat ≤ 90) ∨ (97 ≤ c.toNat ∧ c.toNat ≤ 122) := by
  simp [Char.isAlpha, isUpper_iff, isLower_iff]

theorem isWhitespace_eq_false_of_isAlpha {c : Char} (h : c.isAlpha = true) :
    c.isWhitespace = false := by
  rw [isAlpha_iff] at h
  rw [Bool.eq_false_iff]
  intro hw
  rw [isWhitespace_iff] at hw
  omega

theorem ne_underscore_of_isAlpha {c : Char} (h : c.isAlpha = true) : c ≠ '_' := by
  rw [isAlpha_iff] at h
  rw [Ne, char_eq_iff_toNat]
  have : ('_' : Char).toNat = 95 := rfl
  rw [this]
  omega

theorem toNat_pyLowerChar_of_isUpper {c : Char} (h : c.isUpper = true) :
    (pyLowerChar c).toNat = c.toNat + 32 := by
  rw [isUpper_iff] at h
  rw [pyLowerChar, if_pos (isUpper_iff.mpr h), charToNat_ofNat (by omega)]

theorem toNat_pyUpperChar_of_isLower {c : Char} (h : c.isLower = true) :
    (pyUpperChar c).toNat = c.toNat - 32 := by
  rw [isLower_iff] at h
  rw [pyUpperChar, if_pos (isLower_iff.mpr h), charToNat_ofNat (by omega)]

theorem isAlpha_pyLowerChar (c : Char) : (pyLowerChar c).isAlpha = c.isAlpha := by
  by_cases h : c.isUpper = true
  · have hn := toNat_pyLowerChar_of_isUpper h
    have hr := isUpper_iff.mp h
    have h1 : (pyLowerChar c).isAlpha = true := by
      rw [isAlpha_iff, hn]; omega
    rw [h1]
    symm
    rw [isAlpha_iff]
    omega
  · rw [pyLowerChar, if_neg h]

theorem isAlpha_pyUpperChar (c : Char) : (pyUpperChar c).isAlpha = c.isAlpha := by
  by_cases h : c.isLower = true
  · have hn := toNat_pyUpperChar_of_isLower h
    have hr := isLower_iff.mp h
    have h1 : (pyUpperChar c).isAlpha = true := by
      rw [isAlpha_iff, hn]; omega
    rw [h1]
    symm
    rw [isAlpha_iff]
    omega
  · rw [pyUpperChar, if_neg h]

theorem pyLowerChar_of_not_upper {c : Char} (h : ¬ c.isUpper = true) :
    pyLowerChar c = c := by
  unfold pyLowerChar
  rw [if_neg h]

theorem pyUpperChar_of_not_lower {c : Char} (h : ¬ c.isLower = true) :
    pyUpperChar c = c := by
  unfold pyUpperChar
  rw [if_neg h]

theorem pyLowerChar_idem (c : Char) : pyLowerChar (pyLowerChar c) = pyLowerChar c := by
  by_cases h : c.isUpper = true
  · have hn := toNat_pyLowerChar_of_isUpper h
    have hr := isUpper_iff.mp h
    have hnot : ¬ (pyLowerChar c).isUpper = true := by
      intro hu
      rw [isUpper_iff, hn] at hu
      omega
    exact pyLowerChar_of_not_upper hnot
  · rw [pyLowerChar_of_not_upper h, pyLowerChar_of_not_upper h]

theorem pyUpperChar_idem (c : Char) : pyUpperChar (pyUpperChar c) = pyUpperChar c := by
  by_cases h : c.isLower = true
  · have hn := toNat_pyUpperChar_of_isLower h
    have hr := isLower_iff.mp h
    have hnot : ¬ (pyUpperChar c).isLower = true := by
      intro hu
      rw [isLower_iff, hn] at hu
      omega
    exact pyUpperChar_of_not_lower hnot
  · rw [pyUpperChar_of_not_lower h, pyUpperChar_of_not_lower h]

theorem isAlpha_titleChar (b : Bool) (c : Char) : (titleChar b c).isAlpha = c.isAlpha := by
  cases b <;> by_cases h : c.isAlpha = true <;>
    simp [titleChar, h, isAlpha_pyLowerChar, isAlpha_pyUpperChar]

theorem isWhitespace_titleChar (b : Bool) (c : Char) :
    (titleChar b c).isWhitespace = c.isWhitespace := by
  by_cases h : c.isAlpha = true
  · have h1 : (titleChar b c).isAlpha = true := by rw [isAlpha_titleChar, h]
    rw [isWhitespace_eq_false_of_isAlpha h1, isWhitespace_eq_false_of_isAlpha h]
  · unfold titleChar
    rw [if_neg h]

theorem titleChar_idem (b : Bool) (c : Char) :
    titleChar b (titleChar b c) = titleChar b c := by
  cases b <;> by_cases h : c.isAlpha = true <;>
    simp [titleChar, h, isAlpha_pyLowerChar, isAlpha_pyUpperChar,
      pyLowerChar_idem, pyUpperChar_idem]

theorem titleChar_ne_underscore {b : Bool} {c : Char} (h : c ≠ '_') :
    titleChar b c ≠ '_' := by
  by_cases ha : c.isAlpha = true
  · have h1 : (titleChar b c).isAlpha = true := by rw [isAlpha_titleChar, ha]
    exact ne_underscore_of_isAlpha h1
  · unfold titleChar
    rw [if_neg ha]
    exact h

/-! ### Word-splitting lemmas -/

theorem chunks_nil : chunks [] = [] := rfl

theorem chunks_cons_ws {c : Char} (hc : c.isWhitespace = true) (cs : List Char) :
    chunks (c :: cs) = [] :: chunks cs := by
  simp [chunks, hc]

theorem chunks_cons_not_ws {c : Char} (hc : c.isWhitespace = false) (cs : List Char) :
    chunks (c :: cs) =
      match chunks cs with
      | [] => [[c]]
      | w :: rest => (c :: w) :: rest := by
  simp [chunks, hc]

/-- Every character of every chunk is a non-whitespace character of the
input. -/
theorem mem_chunks_mem {l : List Char} :
    ∀ w ∈ chunks l, ∀ c ∈ w, c ∈ l ∧ c.isWhitespace = false := by
  induction l with
  | nil => simp [chunks_nil]
  | cons c0 cs ih =>
    intro w hw c hc
    by_cases h0 : c0.isWhitespace = true
    · rw [chunks_cons_ws h0] at hw
      rcases List.mem_cons.mp hw with h | h
      · subst h; simp at hc
      · have := ih w h c hc
        exact ⟨List.mem_cons_of_mem _ this.1, this.2⟩
    · have h0' : c0.isWhitespace = false := by
        cases hx : c0.isWhitespace
        · rfl
        · exact absurd hx h0
      rw [chunks_cons_not_ws h0'] at hw
      rcases hcs : chunks cs with _ | ⟨w0, rest⟩
      · rw [hcs] at hw
        simp only [List.mem_singleton] at hw
        subst hw
        rcases List.mem_singleton.mp hc with rfl
        exact ⟨List.mem_cons_self _ _, h0'⟩
      · rw [hcs] at hw
        rcases List.mem_cons.mp hw with h | h
        · subst h
          rcases List.mem_cons.mp hc with rfl | h
          · exact ⟨List.mem_cons_self _ _, h0'⟩
          · have hw0 : w0 ∈ chunks cs := by rw [hcs]; exact List.mem_cons_self _ _
            have := ih w0 hw0 c h
            exact ⟨List.mem_cons_of_mem _ this.1, this.2⟩
        · have hrest : w ∈ chunks cs := by rw [hcs]; exact List.mem_cons_of_mem _ h
          have := ih w hrest c hc
          exact ⟨List.mem_cons_of_mem _ this.1, this.2⟩

theorem mem_pyWords_mem {l w : List Char} (hw : w ∈ pyWords l) :
    w ≠ [] ∧ ∀ c ∈ w, c ∈ l ∧ c.isWhitespace = false := by
  unfold pyWords at hw
  have h1 := List.mem_of_mem_filter hw
  have h2 := List.of_mem_filter hw
  simp only [ne_eq, decide_not, Bool.not_eq_true', decide_eq_false_iff_not] at h2
  exact ⟨h2, mem_chunks_mem w h1⟩

/-- Dropping a leading whitespace run does not change the word list. -/
theorem pyWords_dropWhile (l : List Char) :
    pyWords (l.dropWhile Char.isWhitespace) = pyWords l := by
  induction l with
  | nil => rfl
  | cons c cs ih =>
    by_cases h : c.isWhitespace = true
    · rw [List.dropWhile_cons_of_pos h, ih]
      unfold pyWords
      rw [chunks_cons_ws h]
      simp
    · rw [List.dropWhile_cons_of_neg h]

/-- Appending one trailing whitespace character does not change the word
list. -/
theorem pyWords_append_ws_single {c : Char} (hc : c.isWhitespace = true) (l : List Char) :
    pyWords (l ++ [c]) = pyWords l := by
  have key : ∀ m : List Char, chunks (m ++ [c]) = chunks m ∨
      chunks (m ++ [c]) = chunks m ++ [[]] := by
    intro m
    induction m with
    | nil =>
      right
      rw [List.nil_append, chunks_cons_ws hc]
      simp [chunks_nil]
    | cons c0 cs ih =>
      by_cases h0 : c0.isWhitespace = true
      · rw [List.cons_append, chunks_cons_ws h0, chunks_cons_ws h0]
        rcases ih with h | h
        · left; rw [h]
        · right; rw [h]
          rfl
      · have h0' : c0.isWhitespace = false := by
          cases hx : c0.isWhitespace
          · rfl
          · exact absurd hx h0
        rw [List.cons_append, chunks_cons_not_ws h0', chunks_cons_not_ws h0']
        rcases ih with h | h
        · left; rw [h]
        · rw [h]
          rcases hcs : chunks cs with _ | ⟨w0, rest⟩
          · left
            simp
          · right
            simp
  unfold pyWords
  rcases key l with h | h
  · rw [h]
  · rw [h, List.filter_append]
    simp

/-- Appending a trailing whitespace run does not change the word list. -/
theorem pyWords_append_ws {sp : List Char} (hsp : ∀ c ∈ sp, c.isWhitespace = true) :
    ∀ l : List Char, pyWords (l ++ sp) = pyWords l := by
  induction sp with
  | nil => intro l; simp
  | cons c sp' ih =>
    intro l
    have hc : c.isWhitespace = true := hsp c (List.mem_cons_self _ _)
    have hsp' : ∀ d ∈ sp', d.isWhitespace = true :=
      fun d hd => hsp d (List.mem_cons_of_mem _ hd)
    calc pyWords (l ++ c :: sp') = pyWords ((l ++ [c]) ++ sp') := by simp
      _ = pyWords (l ++ [c]) := ih hsp' (l ++ [c])
      _ = pyWords l := pyWords_append_ws_single hc l

/-- Stripping boundary whitespace does not change the word list. -/
theorem pyWords_pyStrip (l : List Char) : pyWords (pyStrip l) = pyWords l := by
  unfold pyStrip
  set m := l.dropWhile Char.isWhitespace with hm
  have hsplit : m.reverse = m.reverse.takeWhile Char.isWhitespace ++
      m.reverse.dropWhile Char.isWhitespace := (List.takeWhile_append_dropWhile _ _).symm
  have hm2 : m = (m.reverse.dropWhile Char.isWhitespace).reverse ++
      (m.reverse.takeWhile Char.isWhitespace).reverse := by
    have h2 := congrArg List.reverse hsplit
    rw [List.reverse_reverse, List.reverse_append] at h2
    exact h2
  have hws : ∀ c ∈ (m.reverse.takeWhile Char.isWhitespace).reverse,
      c.isWhitespace = true := by
    intro c hcmem
    rw [List.mem_reverse] at hcmem
    exact List.mem_takeWhile_imp hcmem
  calc pyWords (m.reverse.dropWhile Char.isWhitespace).reverse
      = pyWords ((m.reverse.dropWhile Char.isWhitespace).reverse ++
          (m.reverse.takeWhile Char.isWhitespace).reverse) :=
        (pyWords_append_ws hws _).symm
    _ = pyWords m := by rw [← hm2]
    _ = pyWords l := pyWords_dropWhile l

/-! ### Join and title-case lemmas -/

theorem chunks_of_wsfree {w : List Char} (h : ∀ c ∈ w, c.isWhitespace = false) :
    chunks w = if w = [] then [] else [w] := by
  induction w with
  | nil => simp [chunks_nil]
  | cons c w' ih =>
    have hc : c.isWhitespace = false := h c (List.mem_cons_self _ _)
    have hw' : ∀ d ∈ w', d.isWhitespace = false :=
      fun d hd => h d (List.mem_cons_of_mem _ hd)
    rw [chunks_cons_not_ws hc, ih hw']
    by_cases hn : w' = []
    · subst hn; simp
    · rw [if_neg hn]
      simp

theorem chunks_prepend_word {w : List Char} (h : ∀ c ∈ w, c.isWhitespace = false)
    (t : List Char) : chunks (w ++ ' ' :: t) = w :: chunks t := by
  induction w with
  | nil =>
    rw [List.nil_append, chunks_cons_ws (by rfl)]
  | cons c w' ih =>
    have hc : c.isWhitespace = false := h c (List.mem_cons_self _ _)
    have hw' : ∀ d ∈ w', d.isWhitespace = false :=
      fun d hd => h d (List.mem_cons_of_mem _ hd)
    rw [List.cons_append, chunks_cons_not_ws hc, ih hw']

theorem pyWords_joinSp {ws : List (List Char)}
    (h : ∀ w ∈ ws, w ≠ [] ∧ ∀ c ∈ w, c.isWhitespace = false) :
    pyWords (joinSp ws) = ws := by
  induction ws with
  | nil => rfl
  | cons w ws' ih =>
    have hw := h w (List.mem_cons_self _ _)
    have h' : ∀ v ∈ ws', v ≠ [] ∧ ∀ c ∈ v, c.isWhitespace = false :=
      fun v hv => h v (List.mem_cons_of_mem _ hv)
    cases ws' with
    | nil =>
      show pyWords w = [w]
      unfold pyWords
      rw [chunks_of_wsfree hw.2, if_neg hw.1]
      simp [hw.1]
    | cons w' rest =>
      show pyWords (w ++ ' ' :: joinSp (w' :: rest)) = w :: w' :: rest
      unfold pyWords
      rw [chunks_prepend_word hw.2]
      rw [List.filter_cons_of_pos (by simpa using hw.1)]
      have := ih h'
      unfold pyWords at this
      rw [this]

theorem mem_joinSp {ws : List (List Char)} {c : Char} (hc : c ∈ joinSp ws) :
    c = ' ' ∨ ∃ w ∈ ws, c ∈ w := by
  induction ws with
  | nil => simp [joinSp] at hc
  | cons w ws' ih =>
    cases ws' with
    | nil =>
      right
      exact ⟨w, List.mem_cons_self _ _, hc⟩
    | cons w' rest =>
      have hc' : c ∈ w ++ ' ' :: joinSp (w' :: rest) := hc
      rcases List.mem_append.mp hc' with h | h
      · right; exact ⟨w, List.mem_cons_self _ _, h⟩
      · rcases List.mem_cons.mp h with rfl | h2
        · left; rfl
        · rcases ih h2 with h3 | ⟨v, hv, hcv⟩
          · left; exact h3
          · right; exact ⟨v, List.mem_cons_of_mem _ hv, hcv⟩

/-- The running state of `titleAux` after a prefix. -/
def stateAfter (b : Bool) (l : List Char) : Bool :=
  l.foldl (fun _ c => c.isAlpha) b

theorem titleAux_append (b : Bool) (xs ys : List Char) :
    titleAux b (xs ++ ys) = titleAux b xs ++ titleAux (stateAfter b xs) ys := by
  induction xs generalizing b with
  | nil => rfl
  | cons c xs' ih =>
    show titleChar b c :: titleAux c.isAlpha (xs' ++ ys) = _
    rw [ih c.isAlpha]
    rfl

theorem titleAux_joinSp (ws : List (List Char)) :
    titleAux false (joinSp ws) = joinSp (ws.map (titleAux false)) := by
  induction ws with
  | nil => rfl
  | cons w ws' ih =>
    cases ws' with
    | nil => rfl
    | cons w' rest =>
      show titleAux false (w ++ ' ' :: joinSp (w' :: rest)) = _
      rw [titleAux_append]
      have hsp : titleAux (stateAfter false w) (' ' :: joinSp (w' :: rest)) =
          ' ' :: titleAux false (joinSp (w' :: rest)) := by
        show titleChar (stateAfter false w) ' ' :: titleAux (' '.isAlpha) _ = _
        have h1 : titleChar (stateAfter false w) ' ' = ' ' := by
          unfold titleChar
          rw [if_neg (by decide)]
        have h2 : (' ' : Char).isAlpha = false := by decide
        rw [h1, h2]
      rw [hsp, ih]
      rfl

theorem titleAux_titleAux (b : Bool) (l : List Char) :
    titleAux b (titleAux b l) = titleAux b l := by
  induction l generalizing b with
  | nil => rfl
  | cons c cs ih =>
    show titleChar b (titleChar b c) :: titleAux (titleChar b c).isAlpha
      (titleAux c.isAlpha cs) = titleChar b c :: titleAux c.isAlpha cs
    rw [titleChar_idem, isAlpha_titleChar, ih]

theorem length_titleAux (b : Bool) (l : List Char) :
    (titleAux b l).length = l.length := by
  induction l generalizing b with
  | nil => rfl
  | cons c cs ih =>
    show (titleChar b c :: titleAux c.isAlpha cs).length = _
    simp [ih]

theorem wsfree_titleAux {l : List Char} (h : ∀ c ∈ l, c.isWhitespace = false)
    (b : Bool) : ∀ c ∈ titleAux b l, c.isWhitespace = false := by
  induction l generalizing b with
  | nil => simp [titleAux]
  | cons c cs ih =>
    intro d hd
    rcases List.mem_cons.mp hd with rfl | hd'
    · rw [isWhitespace_titleChar]
      exact h c (List.mem_cons_self _ _)
    · exact ih (fun e he => h e (List.mem_cons_of_mem _ he)) c.isAlpha d hd'

theorem underscore_not_mem_titleAux {l : List Char} (h : '_' ∉ l) (b : Bool) :
    '_' ∉ titleAux b l := by
  induction l generalizing b with
  | nil => simp [titleAux]
  | cons c cs ih =>
    intro hd
    rcases List.mem_cons.mp hd with heq | hd'
    · exact titleChar_ne_underscore (fun hc => h (hc ▸ List.mem_cons_self _ _)) heq.symm
    · exact ih (fun hc => h (List.mem_cons_of_mem _ hc)) c.isAlpha hd'

/-! ### Underscore lemmas -/

theorem underscore_not_mem_replaceUnderscores (l : List Char) :
    '_' ∉ replaceUnderscores l := by
  intro h
  unfold replaceUnderscores at h
  rcases List.mem_map.mp h with ⟨c, _, hc⟩
  by_cases hu : c = '_'
  · rw [if_pos hu] at hc
    exact absurd hc (by decide)
  · rw [if_neg hu] at hc
    exact hu hc

theorem replaceUnderscores_id {l : List Char} (h : '_' ∉ l) :
    replaceUnderscores l = l := by
  unfold replaceUnderscores
  rw [List.map_congr_left ?_, List.map_id]
  intro c hc
  have hne : ¬ c = '_' := fun he => h (he ▸ hc)
  rw [if_neg hne]
  rfl

theorem mem_pyStrip {l : List Char} {c : Char} (h : c ∈ pyStrip l) : c ∈ l := by
  unfold pyStrip at h
  rw [List.mem_reverse] at h
  have h1 := (List.dropWhile_sublist _).subset h
  rw [List.mem_reverse] at h1
  exact (List.dropWhile_sublist (l := l) _).subset h1

/-! ### Idempotence of the symptom normalization -/

theorem normalizeText_idem (l : List Char) :
    pyTitle (joinSp (pyWords (replaceUnderscores (pyStrip
      (pyTitle (joinSp (pyWords (replaceUnderscores (pyStrip l))))))))) =
    pyTitle (joinSp (pyWords (replaceUnderscores (pyStrip l)))) := by
  set ws := pyWords (replaceUnderscores (pyStrip l)) with hws
  have hwf : ∀ w ∈ ws, w ≠ [] ∧ ∀ c ∈ w, c.isWhitespace = false := by
    intro w hw
    have := mem_pyWords_mem hw
    exact ⟨this.1, fun c hc => (this.2 c hc).2⟩
  have hnou : ∀ w ∈ ws, '_' ∉ w := by
    intro w hw hcu
    have := mem_pyWords_mem hw
    exact underscore_not_mem_replaceUnderscores _ ((this.2 '_' hcu).1)
  have hG : pyTitle (joinSp ws) = joinSp (ws.map (titleAux false)) :=
    titleAux_joinSp ws
  have htwf : ∀ w ∈ ws.map (titleAux false),
      w ≠ [] ∧ ∀ c ∈ w, c.isWhitespace = false := by
    intro w hw
    rcases List.mem_map.mp hw with ⟨v, hv, rfl⟩
    constructor
    · intro hlen
      have h0 := length_titleAux false v
      rw [hlen] at h0
      exact (hwf v hv).1 (List.length_eq_zero.mp h0.symm)
    · exact wsfree_titleAux (fun c hc => (hwf v hv).2 c hc) false
  have hN_nou : '_' ∉ joinSp (ws.map (titleAux false)) := by
    intro hmem
    rcases mem_joinSp hmem with h | ⟨w, hw, hcw⟩
    · exact absurd h (by decide)
    · rcases List.mem_map.mp hw with ⟨v, hv, rfl⟩
      exact underscore_not_mem_titleAux (hnou v hv) false hcw
  rw [hG]
  have h1 : replaceUnderscores (pyStrip (joinSp (ws.map (titleAux false)))) =
      pyStrip (joinSp (ws.map (titleAux false))) := by
    apply replaceUnderscores_id
    intro hmem
    exact hN_nou (mem_pyStrip hmem)
  rw [h1, pyWords_pyStrip, pyWords_joinSp htwf]
  show titleAux false (joinSp (ws.map (titleAux false))) = _
  rw [titleAux_joinSp, List.map_map]
  congr 1
  apply List.map_congr_left
  intro w _
  exact titleAux_titleAux false w

theorem clean_symptom_text_some_of_ne {s : String} (h : s ≠ "") :
    clean_symptom_text (some s) =
      ⟨pyTitle (joinSp (pyWords (replaceUnderscores (pyStrip s.data))))⟩ := by
  simp only [clean_symptom_text]
  rw [if_neg h]

/-- C10: normalizing an already-normalized symptom token — any output of
`clean_symptom_text` — returns it unchanged. -/
theorem clean_symptom_text_idem (o : Option String) :
    clean_symptom_text (some (clean_symptom_text o)) = clean_symptom_text o := by
  cases o with
  | none => rfl
  | some s =>
    by_cases hs : s = ""
    · subst hs; rfl
    · rw [clean_symptom_text_some_of_ne hs]
      by_cases hz : pyTitle (joinSp (pyWords (replaceUnderscores (pyStrip s.data)))) = []
      · rw [hz]
        rfl
      · have hemp : (⟨pyTitle (joinSp (pyWords (replaceUnderscores (pyStrip s.data))))⟩
            : String) ≠ "" := by
          intro he
          exact hz (congrArg String.data he)
        rw [clean_symptom_text_some_of_ne hemp]
        exact congrArg (fun d => ({ data := d } : String)) (normalizeText_idem s.data)

/-! ### Haversine scenario lemmas -/

theorem calculate_distance_eq_haversineSpec (a b c d : ℝ) :
    calculate_distance a b c d = haversineSpec a b c d := by
  unfold calculate_distance haversineSpec
  ring_nf

theorem dlat_half_eq : (radians 40.01 - radians 40) / 2 = Real.pi / 36000 := by
  unfold radians
  have h : (40.01 : ℝ) = 4001/100 := by norm_num
  rw [h]
  ring

theorem dlon_half_eq : (radians (-74.01) - radians (-74)) / 2 = -(Real.pi / 36000) := by
  unfold radians
  have h : (-74.01 : ℝ) = -(7401/100) := by norm_num
  rw [h]
  ring

theorem radians_forty : radians 40 = Real.pi * (2/9) := by
  unfold radians
  ring

theorem radians_forty01 : radians 40.01 = Real.pi * (4001/18000) := by
  unfold radians
  have h : (40.01 : ℝ) = 4001/100 := by norm_num
  rw [h]
  ring

theorem calculate_distance_scenario_expr : calculate_distance 40 (-74) 40.01 (-74.01) =
    6371 * (2 * Real.arcsin (Real.sqrt (Real.sin (Real.pi/36000) ^ 2 +
      Real.cos (Real.pi * (2/9)) * Real.cos (Real.pi * (4001/18000)) *
      Real.sin (Real.pi/36000) ^ 2))) := by
  show 6371 * (2 * Real.arcsin (Real.sqrt
    (Real.sin ((radians 40.01 - radians 40) / 2) ^ 2 +
     Real.cos (radians 40) * Real.cos (radians 40.01) *
       Real.sin ((radians (-74.01) - radians (-74)) / 2) ^ 2))) = _
  rw [dlat_half_eq, dlon_half_eq, radians_forty, radians_forty01, Real.sin_neg]
  ring_nf

theorem pi_rat_lo : (3141592/1000000 : ℝ) < Real.pi := by
  have := Real.pi_gt_d6
  norm_num at this ⊢
  linarith

theorem pi_rat_hi : Real.pi < (3141593/1000000 : ℝ) := by
  have := Real.pi_lt_d6
  norm_num at this ⊢
  linarith

-- H = pi/36000 bounds
theorem sin_sq_H_bounds :
    (761542456896/100000000000000000000 : ℝ) ≤ Real.sin (Real.pi/36000) ^ 2 ∧
    Real.sin (Real.pi/36000) ^ 2 ≤ (9869606577649/1296000000000000000000 : ℝ) := by
  set H := Real.pi/36000 with hH
  have hH1 : (3141592/1000000/36000 : ℝ) < H := by
    rw [hH]; have := pi_rat_lo; linarith
  have hH2 : H < (3141593/1000000/36000 : ℝ) := by
    rw [hH]; have := pi_rat_hi; linarith
  have hHpos : 0 < H := by linarith [hH1]
  have hH1' : H ≤ 1 := by linarith [hH2]
  have hs_up : Real.sin H < H := Real.sin_lt hHpos
  have hs_lo : H - H ^ 3 / 4 < Real.sin H := Real.sin_gt_sub_cube hHpos hH1'
  have hH3 : H ^ 3 ≤ (3141593/1000000/36000 : ℝ) ^ 3 :=
    pow_le_pow_left₀ hHpos.le hH2.le 3
  have hs_lo2 : (872664/10000000000 : ℝ) ≤ Real.sin H := by nlinarith
  have hs_nonneg : (0:ℝ) ≤ Real.sin H := by nlinarith
  constructor
  · nlinarith
  · nlinarith

-- cos(pi*2/9) bounds
theorem cos_A_bounds :
    (7439/10000 : ℝ) ≤ Real.cos (Real.pi * (2/9)) ∧
    Real.cos (Real.pi * (2/9)) ≤ (7687/10000 : ℝ) := by
  set A := Real.pi * (2/9) with hA
  have hA1 : (6283184/9000000 : ℝ) < A := by
    rw [hA]; have := pi_rat_lo; nlinarith
  have hA2 : A < (6283186/9000000 : ℝ) := by
    rw [hA]; have := pi_rat_hi; nlinarith
  have hApos : 0 < A := by linarith
  have habs : |A| ≤ 1 := by
    rw [abs_of_pos hApos]; linarith
  have hb := Real.cos_bound habs
  rw [abs_of_pos hApos] at hb
  have hb' := abs_le.mp hb
  have hA2sq : A ^ 2 ≤ (6283186/9000000 : ℝ) ^ 2 := pow_le_pow_left₀ hApos.le hA2.le 2
  have hA2sq' : (6283184/9000000 : ℝ) ^ 2 ≤ A ^ 2 := pow_le_pow_left₀ (by norm_num) hA1.le 2
  have hA4 : A ^ 4 ≤ (6283186/9000000 : ℝ) ^ 4 := pow_le_pow_left₀ hApos.le hA2.le 4
  have hA4' : (0:ℝ) ≤ A ^ 4 := by positivity
  constructor
  · nlinarith [hb'.1]
  · nlinarith [hb'.2]

-- cos(pi*4001/18000) bounds
theorem cos_B_bounds :
    (7437/10000 : ℝ) ≤ Real.cos (Real.pi * (4001/18000)) ∧
    Real.cos (Real.pi * (4001/18000)) ≤ (7686/10000 : ℝ) := by
  set B := Real.pi * (4001/18000) with hB
  have hB1 : (3141592/1000000 * (4001/18000) : ℝ) < B := by
    rw [hB]; have := pi_rat_lo; nlinarith
  have hB2 : B < (3141593/1000000 * (4001/18000) : ℝ) := by
    rw [hB]; have := pi_rat_hi; nlinarith
  have hBpos : 0 < B := by linarith [hB1]
  have habs : |B| ≤ 1 := by
    rw [abs_of_pos hBpos]; linarith [hB2]
  have hb := Real.cos_bound habs
  rw [abs_of_pos hBpos] at hb
  have hb' := abs_le.mp hb
  have hB2sq : B ^ 2 ≤ (3141593/1000000 * (4001/18000) : ℝ) ^ 2 :=
    pow_le_pow_left₀ hBpos.le hB2.le 2
  have hB2sq' : (3141592/1000000 * (4001/18000) : ℝ) ^ 2 ≤ B ^ 2 :=
    pow_le_pow_left₀ (by norm_num) hB1.le 2
  have hB4 : B ^ 4 ≤ (3141593/1000000 * (4001/18000) : ℝ) ^ 4 :=
    pow_le_pow_left₀ hBpos.le hB2.le 4
  have hB4' : (0:ℝ) ≤ B ^ 4 := by positivity
  constructor
  · nlinarith [hb'.1]
  · nlinarith [hb'.2]

theorem scenario_distance_bounds :
    (138569/100000 : ℝ) ≤ calculate_distance 40 (-74) 40.01 (-74.01) ∧
    calculate_distance 40 (-74) 40.01 (-74.01) ≤ (144/100 : ℝ) := by
  rw [calculate_distance_scenario_expr]
  have hs2b := sin_sq_H_bounds
  have hcAb := cos_A_bounds
  have hcBb := cos_B_bounds
  set s2 := Real.sin (Real.pi/36000) ^ 2 with hs2def
  set cA := Real.cos (Real.pi * (2/9)) with hcAdef
  set cB := Real.cos (Real.pi * (4001/18000)) with hcBdef
  have hs2_nonneg : (0:ℝ) ≤ s2 := by positivity
  have hcc_lo : (7439/10000 : ℝ) * (7437/10000) ≤ cA * cB :=
    mul_le_mul hcAb.1 hcBb.1 (by norm_num) (by linarith [hcAb.1])
  have hcc_hi : cA * cB ≤ (7687/10000 : ℝ) * (7686/10000) :=
    mul_le_mul hcAb.2 hcBb.2 (by linarith [hcBb.1]) (by norm_num)
  have hcc_nonneg : (0:ℝ) ≤ cA * cB := by nlinarith [hcc_lo]
  set a := s2 + cA * cB * s2 with ha
  have ha_lo : (118270/10000000000000 : ℝ) ≤ a := by
    have h1 : (7439/10000 : ℝ) * (7437/10000) *
        (761542456896/100000000000000000000) ≤ (cA * cB) * s2 :=
      mul_le_mul hcc_lo hs2b.1 (by norm_num) hcc_nonneg
    rw [ha]
    linarith [h1, hs2b.1]
  have ha_hi : a ≤ (121150/10000000000000 : ℝ) := by
    have h1 : (cA * cB) * s2 ≤ (7687/10000 : ℝ) * (7686/10000) *
        (9869606577649/1296000000000000000000) :=
      mul_le_mul hcc_hi hs2b.2 hs2_nonneg (by norm_num)
    rw [ha]
    linarith [h1, hs2b.2]
  have hq : ((10875/100000000 : ℝ)) ^ 2 = 118265625/10000000000000000 := by norm_num
  have hr : ((11008/100000000 : ℝ)) ^ 2 = 121176064/10000000000000000 := by norm_num
  have hsq_lo : (10875/100000000 : ℝ) ≤ Real.sqrt a := by
    have h1 : ((10875/100000000 : ℝ)) ^ 2 ≤ a := by rw [hq]; linarith [ha_lo]
    calc (10875/100000000 : ℝ)
        = Real.sqrt ((10875/100000000 : ℝ) ^ 2) := (Real.sqrt_sq (by norm_num)).symm
      _ ≤ Real.sqrt a := Real.sqrt_le_sqrt h1
  have hsq_hi : Real.sqrt a ≤ (11008/100000000 : ℝ) := by
    have h1 : a ≤ ((11008/100000000 : ℝ)) ^ 2 := by rw [hr]; linarith [ha_hi]
    calc Real.sqrt a ≤ Real.sqrt ((11008/100000000 : ℝ) ^ 2) := Real.sqrt_le_sqrt h1
      _ = (11008/100000000 : ℝ) := Real.sqrt_sq (by norm_num)
  have hsa_nonneg : 0 ≤ Real.sqrt a := Real.sqrt_nonneg a
  have hsa_le_one : Real.sqrt a ≤ 1 := by linarith
  have harc_lo : Real.sqrt a ≤ Real.arcsin (Real.sqrt a) := by
    have h3 : Real.sin (Real.arcsin (Real.sqrt a)) = Real.sqrt a :=
      Real.sin_arcsin (by linarith) hsa_le_one
    have h4 : 0 ≤ Real.arcsin (Real.sqrt a) := Real.arcsin_nonneg.mpr hsa_nonneg
    calc Real.sqrt a = Real.sin (Real.arcsin (Real.sqrt a)) := h3.symm
      _ ≤ Real.arcsin (Real.sqrt a) := Real.sin_le h4
  have hupos : (0:ℝ) < 144/1274200 := by norm_num
  have hu1 : (144/1274200 : ℝ) ≤ 1 := by norm_num
  have hsinu : (144/1274200 : ℝ) - (144/1274200 : ℝ) ^ 3 / 4 <
      Real.sin (144/1274200) := Real.sin_gt_sub_cube hupos hu1
  have hle : Real.sqrt a ≤ Real.sin (144/1274200) := by
    have hnum : (11008/100000000 : ℝ) ≤
        (144/1274200 : ℝ) - (144/1274200 : ℝ) ^ 3 / 4 := by norm_num
    linarith
  have harc_hi : Real.arcsin (Real.sqrt a) ≤ (144/1274200 : ℝ) := by
    have h7 := Real.monotone_arcsin hle
    have h8 : Real.arcsin (Real.sin (144/1274200)) = (144/1274200 : ℝ) := by
      apply Real.arcsin_sin
      · have := pi_rat_lo; linarith
      · have := pi_rat_lo; linarith
    rw [h8] at h7
    exact h7
  constructor
  · linarith [harc_lo, hsq_lo]
  · linarith [harc_hi]

theorem scenario_distance_rounded :
    extract_place_distance 40 (-74) 40.01 (-74.01) = 7/5 := by
  have hb := scenario_distance_bounds
  unfold extract_place_distance round1
  have hfloor : round ((10:ℝ) * calculate_distance 40 (-74) 40.01 (-74.01)) = 14 := by
    rw [round_eq]
    apply Int.floor_eq_iff.mpr
    constructor
    · push_cast
      linarith [hb.1]
    · push_cast
      linarith [hb.2]
  rw [hfloor]
  norm_num

/-- C7: the distance attached to a facility record by the place-info
extraction equals the spec's haversine great-circle distance (radius 6371 km)
rounded to one decimal place, and at the reference pair the true distance
lies in the claimed vicinity (it is about 1.4007 km, between 1.3 and 1.45),
so the attached value is exactly 1.4 km. -/
theorem extract_place_distance_haversine :
    (∀ lat1 lon1 lat2 lon2 : ℝ, extract_place_distance lat1 lon1 lat2 lon2
      = round1 (haversineSpec lat1 lon1 lat2 lon2)) ∧
    (13/10 : ℝ) ≤ calculate_distance 40 (-74) 40.01 (-74.01) ∧
    calculate_distance 40 (-74) 40.01 (-74.01) < (29/20 : ℝ) ∧
    extract_place_distance 40 (-74) 40.01 (-74.01) = 7/5 := by
  refine ⟨?_, ?_, ?_, scenario_distance_rounded⟩
  · intro lat1 lon1 lat2 lon2
    unfold extract_place_distance
    rw [calculate_distance_eq_haversineSpec]
  · linarith [scenario_distance_bounds.1]
  · linarith [scenario_distance_bounds.2]
